import Mathlib

/-!
Shallow embedding of the `directory_finder` tool (src/main.rs).

Paths are modelled as lists of path segments (the component view of a Rust
`PathBuf`; Rust compares paths component-wise, so `/a//b` and `/a/b` are the
same value).  The external world — the filesystem and the spawned `git`
processes — is modelled by a `World` structure of oracles: each oracle records
what the corresponding system call returns at a given path.  A spawned
command's observable outcome is a `CmdOut` (`none` at the `Option` layer means
the process failed to spawn, matching `Command::output()` returning `Err`).

String processing (`trim`, `lines`, `split_once(' ')`, `contains`,
`PathBuf::from`) is re-implemented on `List Char` so that every function is a
plain structural recursion the kernel can evaluate.
-/

/-- Observable outcome of a spawned process: `stdoutUtf8` is the strict UTF-8
decoding of its standard output (`none` when the bytes are not valid UTF-8,
matching `String::from_utf8` failing), `stdoutLossy` is the lossy decoding
(`String::from_utf8_lossy`), and `success` is `status.success()`.  The field
`lossy_coh` records that the two decodings agree whenever the strict one
succeeds. -/
structure CmdOut where
  stdoutUtf8 : Option String
  stdoutLossy : String
  success : Bool
  lossy_coh : ∀ s, stdoutUtf8 = some s → stdoutLossy = s

/-- Builds the outcome of a process whose standard output is valid UTF-8. -/
def CmdOut.utf8 (s : String) (ok : Bool) : CmdOut :=
  { stdoutUtf8 := some s, stdoutLossy := s, success := ok,
    lossy_coh := fun _ h => Option.some.inj h }

/-- Oracles describing the filesystem and the behavior of every external git
invocation the program can make.  `subdirs p` is the ordered list of names of
the child directories of `p` that the directory walk sees (walkdir yields
directory entries in this order; non-directory entries are pruned by
`filter_entry(|e| e.file_type().is_dir())` and contribute nothing).
`headIsFile p` models `p.join("HEAD").is_file()`, `dotGitIsDir p` models
`p.join(".git").is_dir()`.  The three command oracles give the outcome of
`git -C p rev-parse --is-inside-work-tree`, `git -C p rev-parse
--is-inside-git-dir` and `git -C p worktree list` respectively; `none` means
the process failed to spawn. -/
structure World where
  subdirs : List String → List String
  headIsFile : List String → Bool
  dotGitIsDir : List String → Bool
  insideWorkTree : List String → Option CmdOut
  insideGitDir : List String → Option CmdOut
  worktreeListCmd : List String → Option CmdOut

/-- Directory classification, mirroring `enum DirType` in main.rs.  In the
spec's vocabulary: `BareGit` is `BareRepository`, `Git` is `GitWorktree`,
`Dir` is `PlainDirectory`, and `WorkTree` is `LinkedWorktree`. -/
inductive DirType where
  | BareGit
  | WorkTree
  | Git
  | Dir
deriving DecidableEq

/-- Classified entry, mirroring `struct ProjectDir` in main.rs. -/
structure ProjectDir where
  dir_type : DirType
  path : List String
deriving DecidableEq

/-! String helpers, re-implemented structurally. -/

/-- Whitespace test used by `trim`; covers the ASCII whitespace the program
can actually meet on git's standard output. -/
def isWsp (c : Char) : Bool :=
  c = ' ' || c = '\t' || c = '\r' || c = '\n'

/-- Model of Rust `str::trim` (drop leading and trailing whitespace). -/
def rustTrim (s : String) : String :=
  String.mk (((s.toList.dropWhile isWsp).reverse.dropWhile isWsp).reverse)

/-- Splits a character list at every occurrence of `sep`; `splitChar sep []`
is `[[]]`, matching the semantics of Rust `split`. -/
def splitChar (sep : Char) : List Char → List (List Char)
  | [] => [[]]
  | c :: cs =>
    let r := splitChar sep cs
    if c = sep then [] :: r
    else
      match r with
      | [] => [[c]]
      | h :: t => (c :: h) :: t

/-- Component view of `PathBuf::from` applied to a path string: split on the
separator and drop empty components. -/
def pathOfString (s : String) : List String :=
  ((splitChar '/' s.toList).filter (fun t => decide (t ≠ []))).map String.mk

/-- Substring test on character lists, modelling Rust `str::contains`. -/
def hasSubstr (pat : List Char) : List Char → Bool
  | [] => pat.isEmpty
  | c :: cs => pat.isPrefixOf (c :: cs) || hasSubstr pat cs

/-- Checks whether an output line contains the literal marker `(bare)`. -/
def containsBareMarker (line : String) : Bool :=
  hasSubstr "(bare)".toList line.toList

/-- Strips one trailing carriage return, as Rust `str::lines` does for
`\r\n` line endings. -/
def stripTrailingCR (s : String) : String :=
  match s.toList.getLast? with
  | some '\r' => String.mk s.toList.dropLast
  | _ => s

/-- Model of Rust `str::lines`: split on `\n`, strip a `\r` left at the end
of every segment that was followed by a `\n`, and drop the final segment when
it is empty (a trailing line ending yields no extra empty line). -/
def rustLines (s : String) : List String :=
  let p := (splitChar '\n' s.toList).map String.mk
  p.dropLast.map stripTrailingCR ++
    (match p.getLast? with
     | some t => if t = "" then [] else [t]
     | none => [])

/-- Model of Rust `str::split_once(' ')`: the part before the first space
character and the part after it, or `none` when the line contains no space. -/
def split_once_space (line : String) : Option (String × String) :=
  let pre := line.toList.takeWhile (fun c => decide (c ≠ ' '))
  if pre.length < line.toList.length then
    some (String.mk pre, String.mk (line.toList.drop (pre.length + 1)))
  else none

/-! The program itself. -/

/-- Model of the byte slice `&path[2..]` on a Rust `&str`: `none` when byte
offset 2 is past the end of the string or falls inside a multi-byte character
(both cases panic in Rust), otherwise the characters after the first two
bytes. -/
def byteSliceFrom : List Char → Nat → Option (List Char)
  | s, 0 => some s
  | [], _ + 1 => none
  | c :: cs, n + 1 =>
    if c.utf8Size ≤ n + 1 then byteSliceFrom cs (n + 1 - c.utf8Size) else none

/-- Model of `home.join(rel)` for a Rust `Path::join`: an absolute `rel`
replaces `home` entirely, any other `rel` is appended component-wise. -/
def rustJoin (home : List String) (rel : String) : List String :=
  if rel.toList.head? = some '/' then pathOfString rel
  else home ++ pathOfString rel

/-- Model of `expand_path` in main.rs.  The result is `none` exactly when the
Rust function panics (the byte slice `&path[2..]` is out of bounds or not at
a character boundary). -/
def expand_path (path : String) (home : List String) : Option (List String) :=
  if path.toList.head? = some '/' then some (pathOfString path)
  else if path.toList.head? = some '~' then
    (byteSliceFrom path.toList 2).map (fun rest => rustJoin home (String.mk rest))
  else some (rustJoin home path)

/-- Trimmed standard output actually compared against `"true"` by the two
probes: a spawn failure contributes the empty string (`Err(_) =>
String::new()`), a non-UTF8 output is replaced by the empty string before
trimming (`String::from_utf8(..).unwrap_or_else(|_| "".to_string())`). -/
def cmdTrimmedStdout (r : Option CmdOut) : String :=
  match r with
  | some o => rustTrim (o.stdoutUtf8.getD "")
  | none => ""

/-- Model of `is_git_repository` in main.rs. -/
def is_git_repository (w : World) (dir : List String) : Bool :=
  if w.dotGitIsDir dir then
    decide (cmdTrimmedStdout (w.insideWorkTree dir) = "true")
  else false

/-- Model of `is_bare_repository` in main.rs.  `dir.getLast?` models
`dir.file_name()` (walkdir entries never end in `.` or `..`, so the last
segment is the file name; a path with no segment has no file name and
`map_or(false, ..)` yields `false`). -/
def is_bare_repository (w : World) (dir : List String) : Bool :=
  if w.headIsFile dir then
    if cmdTrimmedStdout (w.insideGitDir dir) = "true" then
      match dir.getLast? with
      | some name => decide (name ≠ ".git")
      | none => false
    else false
  else false

/-- Classification performed inline in `process_entries` (main.rs lines
146-152): bare first, then ordinary git repository, else plain directory. -/
def classify_dir (w : World) (path : List String) : DirType :=
  if is_bare_repository w path then DirType.BareGit
  else if is_git_repository w path then DirType.Git
  else DirType.Dir

/-- Model of `list_worktrees` in main.rs: spawn failure or unsuccessful exit
status yields `none`; otherwise the lossy-decoded output is parsed line by
line with a running accumulator, exactly as the Rust `for` loop pushes into
`worktrees`. -/
def list_worktrees (w : World) (bare_repo_path : List String) :
    Option (List (List String)) :=
  match w.worktreeListCmd bare_repo_path with
  | none => none
  | some output =>
    if !output.success then none
    else
      some ((rustLines output.stdoutLossy).foldl
        (fun worktrees line =>
          if containsBareMarker line then worktrees
          else
            match split_once_space line with
            | some (path, _) => worktrees ++ [pathOfString path]
            | none => worktrees)
        [])

/-- Worktree entries appended after a bare repository entry (`if let
Some(worktrees) = list_worktrees(path) { for .. push .. }`). -/
def wtEntries (w : World) (path : List String) : List ProjectDir :=
  ((list_worktrees w path).getD []).map
    (fun q => { dir_type := DirType.WorkTree, path := q })

/-- Paths yielded by `WalkDir::new(base).min_depth(1).max_depth(depth)` with
`filter_entry(|e| e.file_type().is_dir())`: the directories strictly below
`base` at relative depths `1..=depth`, parent before children, siblings in
the order the filesystem reports them. -/
def enumerate (w : World) : List String → Nat → List (List String)
  | _, 0 => []
  | base, depth + 1 =>
    (w.subdirs base).flatMap
      (fun name => (base ++ [name]) :: enumerate w (base ++ [name]) depth)

/-- Fueled model of `process_entries` in main.rs.  The Rust recursion is
bounded because the nesting level grows on every recursive call and the call
is guarded by `level <= 1`; the fuel makes that bound structural.  Any fuel
of at least `3 - min level 2` computes the true value (see
`process_entries_fuel_congr`). -/
def process_entries_fuel (w : World) :
    Nat → List String → Nat → Option Nat → List ProjectDir
  | 0, _, _, _ => []
  | fuel + 1, full_path, depth, recursivity_level =>
    let level := recursivity_level.getD 0
    (enumerate w full_path depth).flatMap (fun path =>
      let dir_type := classify_dir w path
      { dir_type := dir_type, path := path } ::
        ((if dir_type = DirType.Dir then
            if level ≤ 1 then
              (process_entries_fuel w fuel path 1 (some (level + 1))).filter
                (fun x => decide (x.dir_type ≠ DirType.Dir))
            else []
          else []) ++
         (if dir_type = DirType.BareGit then wtEntries w path else [])))

/-- Model of `process_entries` in main.rs.  Fuel 3 covers every reachable
nesting level: the top-level call has level 0 and recursion stops once the
level exceeds 1. -/
def process_entries (w : World) (full_path : List String) (depth : Nat)
    (recursivity_level : Option Nat) : List ProjectDir :=
  process_entries_fuel w 3 full_path depth recursivity_level

/-- Instrumentation of the walk: every path the walk enumerates (and hence
classifies), across the top-level enumeration and all recursive
plain-directory expansions, with the same fuel discipline as
`process_entries_fuel`. -/
def visited_fuel (w : World) :
    Nat → List String → Nat → Option Nat → List (List String)
  | 0, _, _, _ => []
  | fuel + 1, full_path, depth, recursivity_level =>
    let level := recursivity_level.getD 0
    (enumerate w full_path depth).flatMap (fun path =>
      path ::
        (if classify_dir w path = DirType.Dir then
          if level ≤ 1 then visited_fuel w fuel path 1 (some (level + 1))
          else []
        else []))

/-- Paths enumerated by `process_entries` (fuel 3, like `process_entries`). -/
def visited (w : World) (full_path : List String) (depth : Nat)
    (recursivity_level : Option Nat) : List (List String) :=
  visited_fuel w 3 full_path depth recursivity_level

/-- Path `q` lies strictly below path `p`. -/
def strictlyBelow (p q : List String) : Prop :=
  p.length < q.length ∧ q.take p.length = p

instance (p q : List String) : Decidable (strictlyBelow p q) :=
  inferInstanceAs (Decidable (_ ∧ _))

/-- Step of an accumulator loop that pushes the value of `h a`, when there is
one, at the end of the accumulator. -/
def pushStep {A B : Type} (h : A → Option B) (acc : List B) (a : A) : List B :=
  match h a with
  | some b => acc ++ [b]
  | none => acc

/-- Per-line decision of the worktree parse, as an `Option`: a line with the
`(bare)` marker contributes nothing, otherwise the part of the line before
its first space character is taken as a path (nothing when the line has no
space character). -/
def worktreeLineTok (line : String) : Option (List String) :=
  if containsBareMarker line then none
  else (split_once_space line).map (fun pr => pathOfString pr.1)

/-- Splits a character list at every character satisfying `p`. -/
def splitPChar (p : Char → Bool) : List Char → List (List Char)
  | [] => [[]]
  | c :: cs =>
    let r := splitPChar p cs
    if p c then [] :: r
    else
      match r with
      | [] => [[c]]
      | h :: t => (c :: h) :: t

/-- Modelled from the spec words, for comparison with the code: the first
whitespace-delimited token of a line, absent when the line contains no
whitespace at all. -/
def specFirstWhitespaceToken (line : String) : Option String :=
  if line.toList.any Char.isWhitespace then
    ((((splitPChar Char.isWhitespace line.toList).filter
        (fun t => decide (t ≠ []))).map String.mk).head?)
  else none

/-! Concrete worlds used as witnesses and counterexamples. -/

/-- Oracle of a world where no git process can ever be spawned. -/
def noCmd : List String → Option CmdOut := fun _ => none

/-- Empty filesystem with no git available. -/
def emptyWorld : World :=
  { subdirs := fun _ => []
    headIsFile := fun _ => false
    dotGitIsDir := fun _ => false
    insideWorkTree := noCmd
    insideGitDir := noCmd
    worktreeListCmd := noCmd }

/-- World where the directory `/r/b` answers both probes positively (it has a
`HEAD` file and a `.git` directory, and both rev-parse queries print
`true`). -/
def wBoth : World :=
  { subdirs := fun p => if p = ["r"] then ["b"] else []
    headIsFile := fun p => p = ["r", "b"]
    dotGitIsDir := fun p => p = ["r", "b"]
    insideWorkTree := fun p =>
      if p = ["r", "b"] then some (CmdOut.utf8 "true\n" true) else none
    insideGitDir := fun p =>
      if p = ["r", "b"] then some (CmdOut.utf8 "true\n" true) else none
    worktreeListCmd := noCmd }

/-- World with a git repository `/r/g` that itself contains a subdirectory
`/r/g/s`. -/
def wDepth2 : World :=
  { subdirs := fun p =>
      if p = ["r"] then ["g"] else if p = ["r", "g"] then ["s"] else []
    headIsFile := fun _ => false
    dotGitIsDir := fun p => p = ["r", "g"]
    insideWorkTree := fun p =>
      if p = ["r", "g"] then some (CmdOut.utf8 "true\n" true) else none
    insideGitDir := noCmd
    worktreeListCmd := noCmd }

/-- World with a bare repository `/r/b` whose worktree listing registers a
worktree stored beneath the bare repository itself, at `/r/b/wt`. -/
def wWt : World :=
  { subdirs := fun p => if p = ["r"] then ["b"] else []
    headIsFile := fun p => p = ["r", "b"]
    dotGitIsDir := fun _ => false
    insideWorkTree := noCmd
    insideGitDir := fun p =>
      if p = ["r", "b"] then some (CmdOut.utf8 "true\n" true) else none
    worktreeListCmd := fun p =>
      if p = ["r", "b"] then some (CmdOut.utf8 "/r/b/wt 1234abcd [main]\n" true)
      else none }

/-- Listing output of the spec's worktree-expansion example. -/
def outC5 : CmdOut :=
  CmdOut.utf8 "/a/wt1 1234abcd [main]\n/repo.git (bare)\n/a/wt2 5678efab [dev]\n" true

/-- World whose worktree listing at `/r/b` is the spec's three-line example. -/
def wC5 : World :=
  { emptyWorld with
    worktreeListCmd := fun p => if p = ["r", "b"] then some outC5 else none }

/-- Listing output consisting of one line whose only whitespace is a tab. -/
def outC5x : CmdOut := CmdOut.utf8 "/a/wt1\tx" true

/-- World whose worktree listing at `/r/b` is the single tab-separated line. -/
def wC5x : World :=
  { emptyWorld with
    worktreeListCmd := fun p => if p = ["r", "b"] then some outC5x else none }

/-- World with a directory `/r/a` carrying real git metadata (`.git`
directory and `HEAD` file) but where no git process can be spawned. -/
def wNoGit : World :=
  { subdirs := fun p => if p = ["r"] then ["a"] else []
    headIsFile := fun p => p = ["r", "a"]
    dotGitIsDir := fun p => p = ["r", "a"]
    insideWorkTree := noCmd
    insideGitDir := noCmd
    worktreeListCmd := noCmd }

/-- First run's world for the determinism claim: a git repository `/r/g`
with a subdirectory. -/
def wRun1 : World :=
  { subdirs := fun p =>
      if p = ["r"] then ["g", "d"] else if p = ["r", "d"] then ["x"] else []
    headIsFile := fun _ => false
    dotGitIsDir := fun p => p = ["r", "g"]
    insideWorkTree := fun p =>
      if p = ["r", "g"] then some (CmdOut.utf8 "true\n" true) else none
    insideGitDir := noCmd
    worktreeListCmd := noCmd }

/-- Second run's world: observationally identical to `wRun1` at every path,
written with different (but pointwise equal) oracle terms. -/
def wRun2 : World :=
  { subdirs := fun p => wRun1.subdirs p ++ []
    headIsFile := fun p => !(!(wRun1.headIsFile p))
    dotGitIsDir := wRun1.dotGitIsDir
    insideWorkTree := wRun1.insideWorkTree
    insideGitDir := wRun1.insideGitDir
    worktreeListCmd := wRun1.worktreeListCmd }

/-! Basic unfolding lemmas. -/

theorem process_entries_fuel_zero (w : World) (fp : List String) (d : Nat)
    (lvl : Option Nat) : process_entries_fuel w 0 fp d lvl = [] := rfl

theorem process_entries_fuel_succ (w : World) (f : Nat) (fp : List String)
    (d : Nat) (lvl : Option Nat) :
    process_entries_fuel w (f + 1) fp d lvl =
      (enumerate w fp d).flatMap (fun path =>
        { dir_type := classify_dir w path, path := path } ::
          ((if classify_dir w path = DirType.Dir then
              if lvl.getD 0 ≤ 1 then
                (process_entries_fuel w f path 1 (some (lvl.getD 0 + 1))).filter
                  (fun x => decide (x.dir_type ≠ DirType.Dir))
              else []
            else []) ++
           (if classify_dir w path = DirType.BareGit then wtEntries w path
            else []))) := rfl

theorem visited_fuel_zero (w : World) (fp : List String) (d : Nat)
    (lvl : Option Nat) : visited_fuel w 0 fp d lvl = [] := rfl

theorem visited_fuel_succ (w : World) (f : Nat) (fp : List String) (d : Nat)
    (lvl : Option Nat) :
    visited_fuel w (f + 1) fp d lvl =
      (enumerate w fp d).flatMap (fun path =>
        path ::
          (if classify_dir w path = DirType.Dir then
            if lvl.getD 0 ≤ 1 then visited_fuel w f path 1 (some (lvl.getD 0 + 1))
            else []
          else [])) := rfl

theorem enumerate_zero (w : World) (base : List String) :
    enumerate w base 0 = [] := rfl

theorem enumerate_succ (w : World) (base : List String) (d : Nat) :
    enumerate w base (d + 1) =
      (w.subdirs base).flatMap
        (fun name => (base ++ [name]) :: enumerate w (base ++ [name]) d) := rfl

theorem enumerate_one (w : World) (base : List String) :
    enumerate w base 1 = (w.subdirs base).map (fun name => base ++ [name]) := by
  rw [enumerate_succ]
  simp only [enumerate_zero]
  induction w.subdirs base with
  | nil => rfl
  | cons n ns ih => simp only [List.flatMap_cons, List.map_cons, ih]; rfl

theorem enumerate_extends (w : World) :
    ∀ (d : Nat) (base q : List String), q ∈ enumerate w base d →
      ∃ s, s ≠ [] ∧ q = base ++ s := by
  intro d
  induction d with
  | zero => intro base q hq; simp [enumerate_zero] at hq
  | succ d ih =>
    intro base q hq
    rw [enumerate_succ, List.mem_flatMap] at hq
    obtain ⟨n, _, hq⟩ := hq
    rcases List.mem_cons.mp hq with h | h
    · exact ⟨[n], by simp, h⟩
    · obtain ⟨s, hs, rfl⟩ := ih (base ++ [n]) q h
      exact ⟨n :: s, by simp, by simp⟩

theorem mem_wtEntries (w : World) (p : List String) (e : ProjectDir) :
    e ∈ wtEntries w p ↔
      e.dir_type = DirType.WorkTree ∧ e.path ∈ (list_worktrees w p).getD [] := by
  unfold wtEntries
  constructor
  · intro h
    obtain ⟨q, hq, rfl⟩ := List.mem_map.mp h
    exact ⟨rfl, hq⟩
  · intro ⟨h1, h2⟩
    refine List.mem_map.mpr ⟨e.path, h2, ?_⟩
    cases e
    simp_all

/-- Any fuel of at least `3 - min level 2` computes the same walk result. -/
theorem process_entries_fuel_congr (w : World) :
    ∀ f g fp d (lvl : Option Nat),
      3 - min (lvl.getD 0) 2 ≤ f → 3 - min (lvl.getD 0) 2 ≤ g →
      process_entries_fuel w f fp d lvl = process_entries_fuel w g fp d lvl := by
  intro f
  induction f with
  | zero => intro g fp d lvl hf _; exfalso; omega
  | succ f ih =>
    intro g fp d lvl hf hg
    cases g with
    | zero => exfalso; omega
    | succ g =>
      rw [process_entries_fuel_succ, process_entries_fuel_succ]
      refine List.flatMap_congr (fun p _ => ?_)
      by_cases hl : lvl.getD 0 ≤ 1
      · have hrec := ih g p 1 (some (lvl.getD 0 + 1))
          (by simp only [Option.getD_some]; omega)
          (by simp only [Option.getD_some]; omega)
        rw [hrec]
      · simp only [if_neg hl]

/-- Recursion equation of the walk, self-referentially through
`process_entries`: each enumerated directory contributes its classified
entry, then (for a plain directory, when the nesting level is at most 1) the
recursive walk at inner depth 1 and level incremented by 1 with plain
directories filtered out, then (for a bare repository) its worktrees. -/
theorem process_entries_unfold (w : World) (full_path : List String)
    (depth : Nat) (lvl : Option Nat) :
    process_entries w full_path depth lvl =
      (enumerate w full_path depth).flatMap (fun path =>
        { dir_type := classify_dir w path, path := path } ::
          ((if classify_dir w path = DirType.Dir then
              if lvl.getD 0 ≤ 1 then
                (process_entries w path 1 (some (lvl.getD 0 + 1))).filter
                  (fun x => decide (x.dir_type ≠ DirType.Dir))
              else []
            else []) ++
           (if classify_dir w path = DirType.BareGit then wtEntries w path
            else []))) := by
  unfold process_entries
  rw [process_entries_fuel_succ]
  refine List.flatMap_congr (fun p _ => ?_)
  by_cases hl : lvl.getD 0 ≤ 1
  · have hrec := process_entries_fuel_congr w 2 3 p 1 (some (lvl.getD 0 + 1))
      (by simp only [Option.getD_some]; omega)
      (by simp only [Option.getD_some]; omega)
    rw [hrec]
  · simp only [if_neg hl]

/-- Every path the walk enumerates strictly extends the walk's base path. -/
theorem visited_sound (w : World) :
    ∀ (f : Nat) (fp : List String) (d : Nat) (lvl : Option Nat) (q : List String),
      q ∈ visited_fuel w f fp d lvl → ∃ s, s ≠ [] ∧ q = fp ++ s := by
  intro f
  induction f with
  | zero => intro fp d lvl q hq; rw [visited_fuel_zero] at hq; simp at hq
  | succ f ih =>
    intro fp d lvl q hq
    rw [visited_fuel_succ, List.mem_flatMap] at hq
    obtain ⟨p, hp, hq⟩ := hq
    obtain ⟨s, hs, rfl⟩ := enumerate_extends w d fp p hp
    rcases List.mem_cons.mp hq with h | h
    · exact ⟨s, hs, h⟩
    · by_cases hD : classify_dir w (fp ++ s) = DirType.Dir
      · by_cases hl : lvl.getD 0 ≤ 1
        · rw [if_pos hD, if_pos hl] at h
          obtain ⟨t, ht, rfl⟩ := ih (fp ++ s) 1 (some (lvl.getD 0 + 1)) q h
          exact ⟨s ++ t, by simp [hs], by simp⟩
        · rw [if_pos hD, if_neg hl] at h; simp at h
      · rw [if_neg hD] at h; simp at h

/-- Every entry the walk reports is either a worktree entry taken from some
bare repository's listing, or the classified entry of a path the walk
enumerated. -/
theorem mem_pf_path (w : World) :
    ∀ (f : Nat) (fp : List String) (d : Nat) (lvl : Option Nat) (e : ProjectDir),
      e ∈ process_entries_fuel w f fp d lvl →
        e.dir_type = DirType.WorkTree ∨
          (e.path ∈ visited_fuel w f fp d lvl ∧
            e.dir_type = classify_dir w e.path) := by
  intro f
  induction f with
  | zero => intro fp d lvl e he; rw [process_entries_fuel_zero] at he; simp at he
  | succ f ih =>
    intro fp d lvl e he
    rw [process_entries_fuel_succ, List.mem_flatMap] at he
    obtain ⟨p, hp, he⟩ := he
    rcases List.mem_cons.mp he with h | h
    · subst h
      refine Or.inr ⟨?_, rfl⟩
      rw [visited_fuel_succ, List.mem_flatMap]
      exact ⟨p, hp, List.mem_cons_self _ _⟩
    · rcases List.mem_append.mp h with h | h
      · by_cases hD : classify_dir w p = DirType.Dir
        · by_cases hl : lvl.getD 0 ≤ 1
          · rw [if_pos hD, if_pos hl] at h
            have he2 := List.mem_of_mem_filter h
            rcases ih p 1 (some (lvl.getD 0 + 1)) e he2 with h2 | ⟨h2, h3⟩
            · exact Or.inl h2
            · refine Or.inr ⟨?_, h3⟩
              rw [visited_fuel_succ, List.mem_flatMap]
              refine ⟨p, hp, List.mem_cons_of_mem _ ?_⟩
              rw [if_pos hD, if_pos hl]
              exact h2
          · rw [if_pos hD, if_neg hl] at h; simp at h
        · rw [if_neg hD] at h; simp at h
      · by_cases hB : classify_dir w p = DirType.BareGit
        · rw [if_pos hB] at h
          exact Or.inl ((mem_wtEntries w p e).mp h).1
        · rw [if_neg hB] at h; simp at h

/-- flatMap of singletons is map. -/
theorem flatMap_pure {α β : Type} (l : List α) (f : α → β) :
    (l.flatMap fun x => [f x]) = l.map f := by
  induction l with
  | nil => rfl
  | cons a t ih => simp only [List.flatMap_cons, List.map_cons, ih]; rfl

/-- In a depth-1 walk, no path strictly below a child that is not classified
as a plain directory is ever enumerated: the walk only descends below
`Dir`-classified children, and distinct children have disjoint subtrees. -/
theorem visited_one_not_below (w : World) (f : Nat) (root : List String)
    (lvl : Option Nat) (d : String)
    (hk : classify_dir w (root ++ [d]) ≠ DirType.Dir) :
    ∀ q ∈ visited_fuel w f root 1 lvl, ¬ strictlyBelow (root ++ [d]) q := by
  intro q hq hbelow
  unfold strictlyBelow at hbelow
  cases f with
  | zero => rw [visited_fuel_zero] at hq; simp at hq
  | succ f =>
    rw [visited_fuel_succ, enumerate_one, List.mem_flatMap] at hq
    obtain ⟨p, hp, hq⟩ := hq
    obtain ⟨c, _, rfl⟩ := List.mem_map.mp hp
    rcases List.mem_cons.mp hq with h | h
    · subst h
      obtain ⟨hlen, _⟩ := hbelow
      simp at hlen
    · by_cases hD : classify_dir w (root ++ [c]) = DirType.Dir
      · by_cases hl : lvl.getD 0 ≤ 1
        · rw [if_pos hD, if_pos hl] at h
          obtain ⟨s, _, rfl⟩ := visited_sound w f (root ++ [c]) 1 _ q h
          obtain ⟨hlen, htake⟩ := hbelow
          have hlen2 : (root ++ [d]).length = (root ++ [c]).length := by simp
          rw [hlen2, List.take_left] at htake
          have hcd : c = d := by simpa using htake
          subst hcd
          exact hk hD
        · rw [if_pos hD, if_neg hl] at h; simp at h
      · rw [if_neg hD] at h; simp at h

/-! World congruence: the walk depends only on the behavior of the oracles. -/

theorem enumerate_congr (w w2 : World)
    (h1 : ∀ p, w.subdirs p = w2.subdirs p) :
    ∀ (d : Nat) (base : List String), enumerate w base d = enumerate w2 base d := by
  intro d
  induction d with
  | zero => intro base; rfl
  | succ d ih =>
    intro base
    rw [enumerate_succ, enumerate_succ, h1]
    exact List.flatMap_congr (fun n _ => by rw [ih])

theorem classify_dir_congr (w w2 : World)
    (h2 : ∀ p, w.headIsFile p = w2.headIsFile p)
    (h3 : ∀ p, w.dotGitIsDir p = w2.dotGitIsDir p)
    (h4 : ∀ p, w.insideWorkTree p = w2.insideWorkTree p)
    (h5 : ∀ p, w.insideGitDir p = w2.insideGitDir p) (p : List String) :
    classify_dir w p = classify_dir w2 p := by
  unfold classify_dir is_bare_repository is_git_repository
  rw [h2, h3, h4, h5]

theorem list_worktrees_congr (w w2 : World)
    (h6 : ∀ p, w.worktreeListCmd p = w2.worktreeListCmd p) (p : List String) :
    list_worktrees w p = list_worktrees w2 p := by
  unfold list_worktrees; rw [h6]

theorem wtEntries_congr (w w2 : World)
    (h6 : ∀ p, w.worktreeListCmd p = w2.worktreeListCmd p) (p : List String) :
    wtEntries w p = wtEntries w2 p := by
  unfold wtEntries; rw [list_worktrees_congr w w2 h6]

theorem process_entries_fuel_world_congr (w w2 : World)
    (h1 : ∀ p, w.subdirs p = w2.subdirs p)
    (h2 : ∀ p, w.headIsFile p = w2.headIsFile p)
    (h3 : ∀ p, w.dotGitIsDir p = w2.dotGitIsDir p)
    (h4 : ∀ p, w.insideWorkTree p = w2.insideWorkTree p)
    (h5 : ∀ p, w.insideGitDir p = w2.insideGitDir p)
    (h6 : ∀ p, w.worktreeListCmd p = w2.worktreeListCmd p) :
    ∀ (f : Nat) (fp : List String) (d : Nat) (lvl : Option Nat),
      process_entries_fuel w f fp d lvl = process_entries_fuel w2 f fp d lvl := by
  intro f
  induction f with
  | zero => intro fp d lvl; rfl
  | succ f ih =>
    intro fp d lvl
    rw [process_entries_fuel_succ, process_entries_fuel_succ,
      enumerate_congr w w2 h1 d fp]
    refine List.flatMap_congr (fun p _ => ?_)
    rw [classify_dir_congr w w2 h2 h3 h4 h5 p, ih p 1 (some (lvl.getD 0 + 1)),
      wtEntries_congr w w2 h6 p]

/-! Graceful degradation when no git process can be spawned. -/

theorem classify_dir_of_no_git (w : World)
    (hW : ∀ p, w.insideWorkTree p = none)
    (hB : ∀ p, w.insideGitDir p = none) (p : List String) :
    classify_dir w p = DirType.Dir := by
  unfold classify_dir is_bare_repository is_git_repository
  rw [hW, hB]
  have e1 : ¬((cmdTrimmedStdout none) = "true") := by decide
  simp [e1]

theorem pf_no_git_all_dir (w : World)
    (hW : ∀ p, w.insideWorkTree p = none)
    (hB : ∀ p, w.insideGitDir p = none) :
    ∀ (f : Nat) (fp : List String) (d : Nat) (lvl : Option Nat) (e : ProjectDir),
      e ∈ process_entries_fuel w f fp d lvl → e.dir_type = DirType.Dir := by
  intro f
  induction f with
  | zero => intro fp d lvl e he; rw [process_entries_fuel_zero] at he; simp at he
  | succ f ih =>
    intro fp d lvl e he
    rw [process_entries_fuel_succ, List.mem_flatMap] at he
    obtain ⟨p, _, he⟩ := he
    have hc := classify_dir_of_no_git w hW hB p
    rcases List.mem_cons.mp he with h | h
    · subst h; exact hc
    · rw [hc, if_pos rfl,
        if_neg (by decide : ¬(DirType.Dir = DirType.BareGit)),
        List.append_nil] at h
      by_cases hl : lvl.getD 0 ≤ 1
      · rw [if_pos hl] at h
        exact ih p 1 _ e (List.mem_of_mem_filter h)
      · rw [if_neg hl] at h; simp at h

theorem process_entries_no_git (w : World)
    (hW : ∀ p, w.insideWorkTree p = none)
    (hB : ∀ p, w.insideGitDir p = none)
    (fp : List String) (d : Nat) (lvl : Option Nat) :
    process_entries w fp d lvl =
      (enumerate w fp d).map (fun p => { dir_type := DirType.Dir, path := p }) := by
  rw [process_entries_unfold]
  rw [← flatMap_pure (enumerate w fp d)
    (fun p => ({ dir_type := DirType.Dir, path := p } : ProjectDir))]
  refine List.flatMap_congr (fun p _ => ?_)
  rw [classify_dir_of_no_git w hW hB p, if_pos rfl,
    if_neg (by decide : ¬(DirType.Dir = DirType.BareGit)), List.append_nil]
  by_cases hl : lvl.getD 0 ≤ 1
  · rw [if_pos hl]
    have hnil : (process_entries w p 1 (some (lvl.getD 0 + 1))).filter
        (fun x => decide (x.dir_type ≠ DirType.Dir)) = [] := by
      refine List.filter_eq_nil_iff.mpr (fun e he => ?_)
      have := pf_no_git_all_dir w hW hB 3 p 1 (some (lvl.getD 0 + 1)) e he
      simp [this]
    rw [hnil]
  · rw [if_neg hl]

/-! Worktree-listing parse as a filterMap. -/

theorem foldl_append_step {α β : Type} (h : α → Option β) :
    ∀ (l : List α) (acc : List β),
      l.foldl (pushStep h) acc = acc ++ l.filterMap h := by
  intro l
  induction l with
  | nil => intro acc; simp
  | cons a t ih =>
    intro acc
    rw [List.foldl_cons, List.filterMap_cons]
    cases hh : h a with
    | none =>
      simp only [pushStep, hh]
      exact ih acc
    | some b =>
      simp only [pushStep, hh]
      rw [ih (acc ++ [b])]
      simp

theorem list_worktrees_step (acc : List (List String)) (line : String) :
    (if containsBareMarker line then acc
     else
       match split_once_space line with
       | some (path, _) => acc ++ [pathOfString path]
       | none => acc)
      = pushStep worktreeLineTok acc line := by
  unfold pushStep worktreeLineTok
  by_cases hb : containsBareMarker line
  · simp [hb]
  · simp only [if_neg hb]
    cases split_once_space line with
    | none => rfl
    | some pr => cases pr; rfl

/-! Claims. -/

/-- C1: for every plain directory encountered during a walk, if the current
nesting level is at most 1 the walker recursively walks that directory with a
fixed inner depth of exactly 1 (regardless of the user-supplied depth) and
nesting level incremented by 1, and drops every entry classified as a plain
directory from the recursive result before appending the remainder to the
outer result; if the nesting level exceeds 1, no recursive call is made.
Stated as the recursion equation of `process_entries`: the nested
contribution of a `Dir`-classified path is exactly
`(process_entries w path 1 (some (level + 1))).filter (dir_type ≠ Dir)` when
`level ≤ 1`, and `[]` otherwise. -/
theorem C1_plain_directory_recursion (w : World) (full_path : List String)
    (depth : Nat) (lvl : Option Nat) :
    process_entries w full_path depth lvl =
      (enumerate w full_path depth).flatMap (fun path =>
        { dir_type := classify_dir w path, path := path } ::
          ((if classify_dir w path = DirType.Dir then
              if lvl.getD 0 ≤ 1 then
                (process_entries w path 1 (some (lvl.getD 0 + 1))).filter
                  (fun x => decide (x.dir_type ≠ DirType.Dir))
              else []
            else []) ++
           (if classify_dir w path = DirType.BareGit then wtEntries w path
            else []))) :=
  process_entries_unfold w full_path depth lvl

/-- C2 counterexample: in a walk with depth 2, the directory `/r/g/s` lies
strictly beneath the entry `/r/g` classified `Git` (the spec's
`GitWorktree`), yet it is enumerated, classified and reported by the very
same walk — the claim that no directory strictly beneath a `GitWorktree`
entry is ever enumerated, classified, or reported is false.  The top-level
walkdir enumeration is depth-bounded by the user depth and does not stop at
repository boundaries. -/
theorem C2_counterexample :
    classify_dir wDepth2 ["r", "g"] = DirType.Git ∧
    { dir_type := DirType.Git, path := ["r", "g"] }
      ∈ process_entries wDepth2 ["r"] 2 none ∧
    { dir_type := DirType.Dir, path := ["r", "g", "s"] }
      ∈ process_entries wDepth2 ["r"] 2 none ∧
    strictlyBelow ["r", "g"] ["r", "g", "s"] := by decide

/-- C2 (amended): in a depth-1 walk, an emitted child entry classified as
anything other than a plain directory (`Git` or `BareGit`) is never recursed
into: no path strictly beneath it is enumerated or classified anywhere in
the walk, and any reported entry whose path lies strictly beneath it can
only be a `WorkTree` entry taken from some worktree listing, never a
directly walked directory.  (With user depth 2 or more, the top-level
enumeration itself descends below such entries; see
`C2_counterexample`.) -/
theorem C2_no_descent_below_non_dir (w : World) (root : List String)
    (lvl : Option Nat) (d : String) (hd : d ∈ w.subdirs root)
    (hk : classify_dir w (root ++ [d]) ≠ DirType.Dir) :
    ({ dir_type := classify_dir w (root ++ [d]), path := root ++ [d] }
        ∈ process_entries w root 1 lvl) ∧
    (∀ q ∈ visited w root 1 lvl, ¬ strictlyBelow (root ++ [d]) q) ∧
    (∀ e ∈ process_entries w root 1 lvl,
      strictlyBelow (root ++ [d]) e.path → e.dir_type = DirType.WorkTree) := by
  refine ⟨?_, visited_one_not_below w 3 root lvl d hk, ?_⟩
  · rw [process_entries_unfold, List.mem_flatMap]
    refine ⟨root ++ [d], ?_, List.mem_cons_self _ _⟩
    rw [enumerate_one]
    exact List.mem_map_of_mem _ hd
  · intro e he hb
    rcases mem_pf_path w 3 root 1 lvl e he with h | ⟨h, _⟩
    · exact h
    · exact absurd hb (visited_one_not_below w 3 root lvl d hk e.path h)

/-- C2 witness: concrete depth-1 walk over `wDepth2` (whose child `/r/g` is
classified `Git` and has a subdirectory `/r/g/s`), instantiating
`C2_no_descent_below_non_dir`. -/
theorem C2_witness :
    ("g" ∈ wDepth2.subdirs ["r"]) ∧
    classify_dir wDepth2 (["r"] ++ ["g"]) ≠ DirType.Dir ∧
    (({ dir_type := classify_dir wDepth2 (["r"] ++ ["g"]), path := ["r"] ++ ["g"] }
        ∈ process_entries wDepth2 ["r"] 1 none) ∧
     (∀ q ∈ visited wDepth2 ["r"] 1 none, ¬ strictlyBelow (["r"] ++ ["g"]) q) ∧
     (∀ e ∈ process_entries wDepth2 ["r"] 1 none,
       strictlyBelow (["r"] ++ ["g"]) e.path → e.dir_type = DirType.WorkTree)) :=
  ⟨by decide, by decide,
    C2_no_descent_below_non_dir wDepth2 ["r"] none "g" (by decide) (by decide)⟩

/-- C3: the bare-repository probe returns true if and only if the directory
has a regular `HEAD` file, the `--is-inside-git-dir` query spawned, produced
valid UTF-8 output whose trimmed form is exactly `"true"`, and the final
path component exists and is not named `.git`; consequently any spawn
failure, non-UTF8 output, or other output yields false, and the probe is a
total boolean function (it never raises an error). -/
theorem C3_bare_probe_iff (w : World) (dir : List String) :
    is_bare_repository w dir = true ↔
      (w.headIsFile dir = true ∧
       (∃ o, w.insideGitDir dir = some o ∧
          ∃ s, o.stdoutUtf8 = some s ∧ rustTrim s = "true") ∧
       (∃ n, dir.getLast? = some n ∧ n ≠ ".git")) := by
  constructor
  · intro h
    unfold is_bare_repository at h
    by_cases hH : w.headIsFile dir = true
    swap
    · rw [if_neg hH] at h; cases h
    rw [if_pos hH] at h
    by_cases hT : cmdTrimmedStdout (w.insideGitDir dir) = "true"
    swap
    · rw [if_neg hT] at h; cases h
    rw [if_pos hT] at h
    refine ⟨hH, ?_, ?_⟩
    · cases hG : w.insideGitDir dir with
      | none => rw [hG] at hT; exact absurd hT (by decide)
      | some o =>
        rw [hG] at hT
        simp only [cmdTrimmedStdout] at hT
        cases hS : o.stdoutUtf8 with
        | none =>
          rw [hS] at hT
          simp only [Option.getD_none] at hT
          exact absurd hT (by decide)
        | some s =>
          rw [hS] at hT
          simp only [Option.getD_some] at hT
          exact ⟨o, rfl, s, hS, hT⟩
    · cases hL : dir.getLast? with
      | none => rw [hL] at h; cases h
      | some name =>
        rw [hL] at h
        exact ⟨name, rfl, of_decide_eq_true h⟩
  · rintro ⟨hH, ⟨o, hG, s, hS, hT⟩, ⟨n, hL, hN⟩⟩
    unfold is_bare_repository
    rw [if_pos hH]
    have hT2 : cmdTrimmedStdout (w.insideGitDir dir) = "true" := by
      rw [hG]
      simp only [cmdTrimmedStdout]
      rw [hS]
      simpa using hT
    rw [if_pos hT2, hL]
    exact decide_eq_true hN

/-- C4: the classification used by the walker returns `BareGit` whenever the
bare probe is true (in particular bare wins when both probes hold),
otherwise `Git` when the work-tree probe is true, otherwise `Dir`. -/
theorem C4_classification_priority (w : World) (p : List String) :
    (is_bare_repository w p = true → classify_dir w p = DirType.BareGit) ∧
    (is_bare_repository w p = false → is_git_repository w p = true →
      classify_dir w p = DirType.Git) ∧
    (is_bare_repository w p = false → is_git_repository w p = false →
      classify_dir w p = DirType.Dir) := by
  refine ⟨fun h => ?_, fun h1 h2 => ?_, fun h1 h2 => ?_⟩
  · simp [classify_dir, h]
  · simp [classify_dir, h1, h2]
  · simp [classify_dir, h1, h2]

/-- C4 witness: in `wBoth` the directory `/r/b` satisfies both probes, and
the classification is `BareGit` — bare detection takes precedence. -/
theorem C4_witness :
    is_bare_repository wBoth ["r", "b"] = true ∧
    is_git_repository wBoth ["r", "b"] = true ∧
    classify_dir wBoth ["r", "b"] = DirType.BareGit :=
  ⟨by decide, by decide,
    (C4_classification_priority wBoth ["r", "b"]).1 (by decide)⟩

/-- C5 counterexample: the line `"/a/wt1\tx"` contains whitespace (a tab),
so the claim's rule — take the first whitespace-delimited token — demands
the worktree path `/a/wt1`; but the code splits only on the space character
(`split_once(' ')`), finds none, skips the line, and a successful listing
made of this single line parses to no worktree at all. -/
theorem C5_counterexample :
    specFirstWhitespaceToken "/a/wt1\tx" = some "/a/wt1" ∧
    containsBareMarker "/a/wt1\tx" = false ∧
    wC5x.worktreeListCmd ["r", "b"] = some outC5x ∧
    outC5x.success = true ∧
    rustLines outC5x.stdoutLossy = ["/a/wt1\tx"] ∧
    list_worktrees wC5x ["r", "b"] = some [] := by
  refine ⟨by decide, by decide, rfl, rfl, by decide, by decide⟩

/-- C5 (amended): for every successful worktree-listing invocation, each
output line containing the literal marker `(bare)` is skipped; of each other
line the portion before its first space character (U+0020) is taken as a
worktree path, with the rest of the line discarded; a line containing no
space character is silently skipped; output order is preserved.  Stated as:
the parse result is the order-preserving `filterMap` of `worktreeLineTok`
over the output lines. -/
theorem C5_worktree_parse (w : World) (p : List String) (out : CmdOut)
    (h1 : w.worktreeListCmd p = some out) (h2 : out.success = true) :
    list_worktrees w p =
      some ((rustLines out.stdoutLossy).filterMap worktreeLineTok) := by
  unfold list_worktrees
  rw [h1]
  simp only [h2, Bool.not_true, Bool.false_eq_true, if_false]
  have hfun :
      (fun (worktrees : List (List String)) (line : String) =>
        if containsBareMarker line then worktrees
        else
          match split_once_space line with
          | some (path, _) => worktrees ++ [pathOfString path]
          | none => worktrees)
      = pushStep worktreeLineTok := by
    funext acc line
    exact list_worktrees_step acc line
  rw [hfun, foldl_append_step worktreeLineTok (rustLines out.stdoutLossy) []]
  rw [List.nil_append]

/-- C5 witness: the spec's own example — a successful listing with lines
`"/a/wt1 1234abcd [main]"`, `"/repo.git (bare)"`, `"/a/wt2 5678efab [dev]"`
parses to exactly the two worktree paths `/a/wt1` then `/a/wt2`, in order,
with no entry for `/repo.git`. -/
theorem C5_witness :
    wC5.worktreeListCmd ["r", "b"] = some outC5 ∧
    outC5.success = true ∧
    list_worktrees wC5 ["r", "b"] = some [["a", "wt1"], ["a", "wt2"]] :=
  ⟨rfl, rfl, by
    have h := C5_worktree_parse wC5 ["r", "b"] outC5 rfl rfl
    exact h.trans (by decide)⟩

/-- C6 counterexample: a depth-1 walk over `wWt` reports, at the top level,
the entry `(WorkTree, /r/b/wt)` whose path has two segments beyond the root
`/r` — and the walk performs no plain-directory expansion at all (its only
child is classified `BareGit` and no reported entry is a plain directory),
so the claim's sole exception does not apply: worktree expansion is a second
source of deeper-than-one-segment top-level entries. -/
theorem C6_counterexample :
    process_entries wWt ["r"] 1 none =
      [{ dir_type := DirType.BareGit, path := ["r", "b"] },
       { dir_type := DirType.WorkTree, path := ["r", "b", "wt"] }] ∧
    wWt.subdirs ["r"] = ["b"] ∧
    classify_dir wWt (["r"] ++ ["b"]) = DirType.BareGit ∧
    (∀ e ∈ process_entries wWt ["r"] 1 none, e.dir_type ≠ DirType.Dir) ∧
    (["r", "b", "wt"] : List String).length = (["r"] : List String).length + 2 := by
  refine ⟨by decide, by decide, by decide, by decide, by decide⟩

/-- C6 (amended): in a depth-1 walk, every reported entry is an immediate
child of the root (the direct enumeration yields exactly the immediate child
directories), or a `WorkTree` entry taken from the worktree listing of some
`BareGit` child, or comes from the plain-directory recursive expansion of
some `Dir`-classified child (with the plain directories filtered out). -/
theorem C6_depth_one_sources (w : World) (root : List String)
    (lvl : Option Nat) (e : ProjectDir)
    (he : e ∈ process_entries w root 1 lvl) :
    (∃ d ∈ w.subdirs root, e.path = root ++ [d] ∧
       e.dir_type = classify_dir w (root ++ [d])) ∨
    (∃ d ∈ w.subdirs root, classify_dir w (root ++ [d]) = DirType.BareGit ∧
       e.dir_type = DirType.WorkTree ∧
       e.path ∈ (list_worktrees w (root ++ [d])).getD []) ∨
    (lvl.getD 0 ≤ 1 ∧ ∃ d ∈ w.subdirs root,
       classify_dir w (root ++ [d]) = DirType.Dir ∧
       e ∈ (process_entries w (root ++ [d]) 1 (some (lvl.getD 0 + 1))).filter
         (fun x => decide (x.dir_type ≠ DirType.Dir))) := by
  rw [process_entries_unfold, enumerate_one, List.mem_flatMap] at he
  obtain ⟨p, hp, he⟩ := he
  obtain ⟨c, hc, rfl⟩ := List.mem_map.mp hp
  rcases List.mem_cons.mp he with h | h
  · subst h; exact Or.inl ⟨c, hc, rfl, rfl⟩
  · rcases List.mem_append.mp h with h | h
    · by_cases hD : classify_dir w (root ++ [c]) = DirType.Dir
      · by_cases hl : lvl.getD 0 ≤ 1
        · rw [if_pos hD, if_pos hl] at h
          exact Or.inr (Or.inr ⟨hl, c, hc, hD, h⟩)
        · rw [if_pos hD, if_neg hl] at h; simp at h
      · rw [if_neg hD] at h; simp at h
    · by_cases hB : classify_dir w (root ++ [c]) = DirType.BareGit
      · rw [if_pos hB] at h
        have h2 := (mem_wtEntries w (root ++ [c]) e).mp h
        exact Or.inr (Or.inl ⟨c, hc, hB, h2.1, h2.2⟩)
      · rw [if_neg hB] at h; simp at h

/-- C6 witness: the deep top-level entry `(WorkTree, /r/b/wt)` of the walk
over `wWt` is accounted for by the worktree listing of the `BareGit` child
`/r/b`, instantiating `C6_depth_one_sources`. -/
theorem C6_witness :
    ∃ d ∈ wWt.subdirs ["r"],
      classify_dir wWt (["r"] ++ [d]) = DirType.BareGit ∧
      ["r", "b", "wt"] ∈ (list_worktrees wWt (["r"] ++ [d])).getD [] := by
  have h := C6_depth_one_sources wWt ["r"] none
      { dir_type := DirType.WorkTree, path := ["r", "b", "wt"] } (by decide)
  rcases h with h | h | h
  · exact absurd h (by decide)
  · obtain ⟨d, hd, h1, _, h3⟩ := h
    exact ⟨d, hd, h1, h3⟩
  · exact absurd h (by decide)

/-- C7: when every external git invocation fails to spawn, the walk still
runs to completion (the model is a total function) and its result is exactly
the enumerated directories, every one classified as a plain directory —
including directories carrying real git metadata (`HEAD` files or `.git`
directories have no influence without a probe answer). -/
theorem C7_graceful_degradation (w : World)
    (hW : ∀ p, w.insideWorkTree p = none)
    (hB : ∀ p, w.insideGitDir p = none)
    (_hL : ∀ p, w.worktreeListCmd p = none)
    (fp : List String) (d : Nat) (lvl : Option Nat) :
    process_entries w fp d lvl =
      (enumerate w fp d).map (fun p => { dir_type := DirType.Dir, path := p }) :=
  process_entries_no_git w hW hB fp d lvl

/-- C7 witness: `wNoGit` has a directory `/r/a` with both a `HEAD` file and
a `.git` directory, yet with git unavailable the walk reports it as a plain
directory. -/
theorem C7_witness :
    (∀ p, wNoGit.insideWorkTree p = none) ∧
    (∀ p, wNoGit.insideGitDir p = none) ∧
    (∀ p, wNoGit.worktreeListCmd p = none) ∧
    wNoGit.dotGitIsDir ["r", "a"] = true ∧
    wNoGit.headIsFile ["r", "a"] = true ∧
    process_entries wNoGit ["r"] 1 none =
      [{ dir_type := DirType.Dir, path := ["r", "a"] }] :=
  ⟨fun _ => rfl, fun _ => rfl, fun _ => rfl, by decide, by decide, by
    have h := C7_graceful_degradation wNoGit (fun _ => rfl) (fun _ => rfl)
      (fun _ => rfl) ["r"] 1 none
    exact h.trans (by decide)⟩

/-- C8 counterexample: the input `"~"` does not start with `/`, yet it is
not resolved relative to the home directory — `&path[2..]` slices byte 2 of
a one-byte string and the function panics (modelled as `none`). -/
theorem C8_counterexample : expand_path "~" ["home", "u"] = none := by decide

/-- C8 (amended): an input starting with `/` is returned unchanged; an input
starting with neither `/` nor `~` is joined onto the home directory; an
input starting with `~` has its first two bytes sliced away — panicking when
byte offset 2 is out of bounds or not a character boundary — and the
remainder is joined onto the home directory (replacing it entirely when the
remainder itself starts with `/`). -/
theorem C8_expansion (path : String) (home : List String) :
    (path.toList.head? = some '/' →
      expand_path path home = some (pathOfString path)) ∧
    (path.toList.head? ≠ some '/' → path.toList.head? ≠ some '~' →
      expand_path path home = some (home ++ pathOfString path)) ∧
    (path.toList.head? = some '~' →
      expand_path path home =
        (byteSliceFrom path.toList 2).map
          (fun rest => rustJoin home (String.mk rest))) := by
  refine ⟨fun h => ?_, fun h1 h2 => ?_, fun h => ?_⟩
  · unfold expand_path
    rw [if_pos h]
  · unfold expand_path
    rw [if_neg h1, if_neg h2]
    unfold rustJoin
    rw [if_neg h1]
  · unfold expand_path
    by_cases h1 : path.toList.head? = some '/'
    · rw [h] at h1
      exact absurd h1 (by decide)
    · rw [if_neg h1, if_pos h]

/-- C8 witness: the three examples of the claim, with home `/home/u` —
`~/code` and `code` both expand to `/home/u/code`, `/abs/code` stays
unchanged — obtained by instantiating `C8_expansion`. -/
theorem C8_witness :
    expand_path "~/code" ["home", "u"] = some ["home", "u", "code"] ∧
    expand_path "code" ["home", "u"] = some ["home", "u", "code"] ∧
    expand_path "/abs/code" ["home", "u"] = some ["abs", "code"] := by
  refine ⟨?_, ?_, ?_⟩
  · have h := (C8_expansion "~/code" ["home", "u"]).2.2 (by decide)
    exact h.trans (by decide)
  · have h := (C8_expansion "code" ["home", "u"]).2.1 (by decide) (by decide)
    exact h.trans (by decide)
  · have h := (C8_expansion "/abs/code" ["home", "u"]).1 (by decide)
    exact h.trans (by decide)

/-- C9: the walk is deterministic — two runs over worlds whose filesystem
and external-probe oracles agree at every path (in particular two runs over
one unchanged world) produce identical ordered entry sequences. -/
theorem C9_deterministic (w w2 : World)
    (h1 : ∀ p, w.subdirs p = w2.subdirs p)
    (h2 : ∀ p, w.headIsFile p = w2.headIsFile p)
    (h3 : ∀ p, w.dotGitIsDir p = w2.dotGitIsDir p)
    (h4 : ∀ p, w.insideWorkTree p = w2.insideWorkTree p)
    (h5 : ∀ p, w.insideGitDir p = w2.insideGitDir p)
    (h6 : ∀ p, w.worktreeListCmd p = w2.worktreeListCmd p)
    (root : List String) (depth : Nat) (lvl : Option Nat) :
    process_entries w root depth lvl = process_entries w2 root depth lvl :=
  process_entries_fuel_world_congr w w2 h1 h2 h3 h4 h5 h6 3 root depth lvl

/-- C9 witness: `wRun1` and `wRun2` are two syntactically different but
observationally identical worlds; the two walks coincide. -/
theorem C9_witness :
    process_entries wRun1 ["r"] 1 none = process_entries wRun2 ["r"] 1 none :=
  C9_deterministic wRun1 wRun2 (fun p => by simp [wRun2])
    (fun p => (Bool.not_not (wRun1.headIsFile p)).symm)
    (fun _ => rfl) (fun _ => rfl) (fun _ => rfl) (fun _ => rfl) ["r"] 1 none

/-- C10 counterexample: the claim asserts that every input beginning with
`~` not followed by `/` (other than `"~"` itself) has its first two bytes
stripped; the input `"~é"` begins with `~` not followed by `/`, but byte
offset 2 falls inside the two-byte character `é`, so the slice
`&path[2..]` panics instead of stripping. -/
theorem C10_counterexample :
    "~é".toList = ['~', 'é'] ∧ ('é' ≠ '/') ∧
    expand_path "~é" ["home", "u"] = none := by
  refine ⟨by decide, by decide, by decide⟩

/-- Slicing zero bytes away returns the whole character list. -/
theorem byteSliceFrom_zero (s : List Char) : byteSliceFrom s 0 = some s := by
  cases s <;> rfl

/-- C10 (amended): `expand_path` panics on the one-byte input `"~"` (byte
index 2 is out of bounds for a string of length 1); for every other input
beginning with `~` and not followed by `/`, if the second character occupies
a single byte then the first two bytes (the `~` and that character, not just
a leading `"~/"`) are stripped before joining onto the home directory, and
if the second character is multi-byte the function panics as well. -/
theorem C10_tilde_slicing (home : List String) :
    (expand_path "~" home = none) ∧
    (∀ (c : Char) (cs : List Char), c ≠ '/' →
      expand_path (String.mk ('~' :: c :: cs)) home =
        (if c.utf8Size = 1 then some (rustJoin home (String.mk cs))
         else none)) := by
  constructor
  · unfold expand_path
    rw [if_neg (by decide), if_pos (by decide)]
    rfl
  · intro c cs _
    unfold expand_path
    have hl : (String.mk ('~' :: c :: cs)).toList = '~' :: c :: cs := rfl
    have hne : ¬(('~' :: c :: cs).head? = some '/') := by
      intro hcontra
      rw [List.head?_cons] at hcontra
      exact absurd (Option.some.inj hcontra) (by decide)
    rw [hl, if_neg hne,
      if_pos (show ('~' :: c :: cs).head? = some '~' from rfl)]
    have h1 : byteSliceFrom ('~' :: c :: cs) 2 = byteSliceFrom (c :: cs) 1 := rfl
    have h2 : byteSliceFrom (c :: cs) 1
        = if c.utf8Size ≤ 1 then byteSliceFrom cs (1 - c.utf8Size) else none := rfl
    by_cases hsz : c.utf8Size = 1
    · rw [if_pos hsz, h1, h2, hsz, if_pos (le_refl 1),
        show (1 : Nat) - 1 = 0 from rfl, byteSliceFrom_zero]
      rfl
    · rw [if_neg hsz, h1, h2]
      have hge : ¬(c.utf8Size ≤ 1) := by
        have hpos := Char.utf8Size_pos c
        omega
      rw [if_neg hge]
      rfl

/-- C10 witness: `"~xyz"` (second character `x`, a single byte, not `/`)
expands with its first two bytes stripped — the result joins `yz` onto the
home directory — instantiating `C10_tilde_slicing`. -/
theorem C10_witness :
    expand_path "~xyz" ["home", "u"] = some ["home", "u", "yz"] ∧
    expand_path "~" ["home", "u"] = none := by
  constructor
  · have h := (C10_tilde_slicing ["home", "u"]).2 'x' "yz".toList (by decide)
    have h2 : String.mk ('~' :: 'x' :: "yz".toList) = "~xyz" := by decide
    rw [h2] at h
    exact h.trans (by decide)
  · exact (C10_tilde_slicing ["home", "u"]).1
